import Mathlib

/-!
Verification of the interrogator and LDSR upscaler modules.

The Python modules `modules/interrogator/interrogate.py` and
`modules/upsampler/ldsr_model.py` are shallowly embedded below: pure
computations become Lean functions over `Nat`, `Int`, `ℚ`, `String` and
lists; Python exceptions become `Except`; mutable model state becomes
explicit state passing; float arithmetic is idealised as exact rational
arithmetic; the opaque pretrained-network kernels (text encoder, vector
norm, exp) are passed in as function parameters, as the specification
treats them as black boxes.
-/

namespace Interrogate

/-- Python whitespace characters, as recognised by `str.strip()`. -/
def isPySpace (c : Char) : Bool :=
  c = ' ' || c = '\t' || c = '\n' || c = '\x0d' || c = '\x0b' || c = '\x0c'

/-- Python `str.strip()`: drop leading and trailing whitespace. -/
def pyStrip (s : String) : String :=
  ⟨((s.data.dropWhile isPySpace).reverse.dropWhile isPySpace).reverse⟩

/-- Python `int` applied to a decimal digit string, as in `int(m.group(1))`. -/
def digitsVal (ds : List Char) : Nat :=
  ds.foldl (fun a c => a * 10 + (c.toNat - 48)) 0

/-- Attempt to match the regex `\.top(\d+)\.` at the head of `t`,
returning the parsed group value.  `\d+` is greedy; since every character
it could give back is a digit and the closing `\.` is not, the match at a
position succeeds exactly when the maximal digit run after `.top` is
nonempty and followed by a dot. -/
def matchTopnAt (t : List Char) : Option Nat :=
  if t.take 4 = ['.', 't', 'o', 'p'] then
    let rest := t.drop 4
    let ds := rest.takeWhile Char.isDigit
    if ds = [] then none
    else if (rest.drop ds.length).take 1 = ['.'] then some (digitsVal ds)
    else none
  else none

/-- Python `re.search(r"\.top(\d+)\.", s)`: try every start position left to
right and return the first match's group value. -/
def searchTopn : List Char → Option Nat
  | [] => none
  | c :: cs =>
    match matchTopnAt (c :: cs) with
    | some n => some n
    | none => searchTopn cs

/-- The namedtuple `Category = namedtuple("Category", ["name", "topn", "items"])`. -/
structure Category where
  name : String
  topn : Nat
  items : List String
deriving DecidableEq, Repr

/-- One iteration of the directory loop in `InterrogateModels.__init__`:
`topn = 1 if m is None else int(m.group(1))`, items are the stripped
lines of the file. -/
def mkCategory (filename : String) (fileLines : List String) : Category :=
  { name := filename
    topn := (searchTopn filename.data).getD 1
    items := fileLines.map pyStrip }

/-- Constructor `InterrogateModels.__init__`: when the content directory exists, one
`Category` per listed file, in listing order; otherwise no categories. -/
def initCategories (dirExists : Bool) (listing : List (String × List String)) :
    List Category :=
  if dirExists then listing.map (fun p => mkCategory p.1 p.2) else []

/-! Specification-side description of the filename pattern. -/

/-- A nonempty run of digits: the `(\d+)` group. -/
def TopnToken (ds : List Char) : Prop :=
  ds ≠ [] ∧ ∀ c ∈ ds, c.isDigit

/-- The filename contains the substring `.top<N>.` somewhere: the claim's
"contains a substring of the form `.top<N>.`". -/
def HasTopn (s : List Char) (n : Nat) : Prop :=
  ∃ a ds b, TopnToken ds ∧ s = a ++ '.' :: 't' :: 'o' :: 'p' :: (ds ++ '.' :: b) ∧
    n = digitsVal ds

/-- The substring `.top<N>.` occurs starting at position `p`. -/
def HasTopnAt (s : List Char) (p : Nat) (n : Nat) : Prop :=
  ∃ ds b, TopnToken ds ∧ s.drop p = '.' :: 't' :: 'o' :: 'p' :: (ds ++ '.' :: b) ∧
    n = digitsVal ds

/-- No `.top<N>.` substring starts at position `p`. -/
def NoTopnAt (s : List Char) (p : Nat) : Prop :=
  ∀ m, ¬ HasTopnAt s p m

/-- Here `r` records the leftmost `.top<N>.` occurrence (position and value),
or `none` when the filename has no such substring. -/
def LeftTopn (s : List Char) : Option (Nat × Nat) → Prop
  | some pn => HasTopnAt s pn.1 pn.2 ∧ ∀ q, q < pn.1 → NoTopnAt s q
  | none => ∀ q, NoTopnAt s q

/-- The top-N value the amended claim assigns: the leftmost occurrence's
value when one exists, `1` otherwise. -/
def topnSpecOf : Option (Nat × Nat) → Nat
  | some pn => pn.2
  | none => 1

/-! Model state, device placement and `unload` (lines 78-92). -/

/-- A torch device: the host cpu or an accelerator. -/
inductive PyDevice
  | cpu
  | cuda (idx : Nat)
deriving DecidableEq, Repr

/-- A loaded model handle: an identity plus its current device
placement, as changed by `.to(device)`. -/
structure ModelHandle where
  mid : Nat
  device : PyDevice
deriving DecidableEq, Repr

/-- Torch `model.to(device)`. -/
def toDevice (m : ModelHandle) (d : PyDevice) : ModelHandle :=
  { m with device := d }

/-- The configuration options the interrogator reads. -/
structure Opts where
  interrogate_keep_models_in_memory : Bool
  interrogate_clip_dict_limit : Nat
deriving DecidableEq, Repr

/-- The mutable model fields of `InterrogateModels`. -/
structure InterrogateState where
  blip_model : Option ModelHandle
  clip_model : Option ModelHandle
deriving DecidableEq, Repr

namespace InterrogateModels

/-- Method `send_clip_to_ram` (lines 78-81). -/
def send_clip_to_ram (opts : Opts) (st : InterrogateState) : InterrogateState :=
  if !opts.interrogate_keep_models_in_memory then
    match st.clip_model with
    | some m => { st with clip_model := some (toDevice m PyDevice.cpu) }
    | none => st
  else st

/-- Method `send_blip_to_ram` (lines 83-86). -/
def send_blip_to_ram (opts : Opts) (st : InterrogateState) : InterrogateState :=
  if !opts.interrogate_keep_models_in_memory then
    match st.blip_model with
    | some m => { st with blip_model := some (toDevice m PyDevice.cpu) }
    | none => st
  else st

/-- Method `unload` (lines 88-92): send clip then blip to ram, then `torch_gc`
(a no-op on the modelled state). -/
def unload (opts : Opts) (st : InterrogateState) : InterrogateState :=
  send_blip_to_ram opts (send_clip_to_ram opts st)

/-! The exception flow of `interrogate` (lines 128-168). -/

/-- Python `res += s` when `res` may be Python `None`: adding a string to `None`
raises a TypeError. -/
def pyAddToRes (res : Option String) (s : String) : Except String (Option String) :=
  match res with
  | none => Except.error "TypeError: unsupported operand type(s) for +=: NoneType and str"
  | some r => Except.ok (some (r ++ s))

/-- Where, if anywhere, the try-block of `interrogate` raises. -/
inductive FailPoint
  /-- an exception inside the low-vram shuffling, `load()` or
  `generate_caption`, before `res = caption` is executed -/
  | beforeCaption
  /-- an exception inside clip preprocessing, image encoding or `rank`,
  after `res = caption` -/
  | afterCaption
  /-- no exception -/
  | nofail
deriving DecidableEq, Repr

/-- The appends `res += ", " + match` performed for the ranked matches
(lines 151-159). -/
def joinMatches (caption : String) (parts : List String) : String :=
  parts.foldl (fun r p => r ++ ", " ++ p) caption

/-- The try-block of `interrogate` (lines 131-159): the value of the
local `res` when the block ends, and whether it raised.  On a failure
before `res = caption`, `res` is still Python `None`; on a later failure
it holds the caption plus the matches appended up to that point. -/
def interrogateBody (fp : FailPoint) (caption : String) (parts : List String) :
    Option String × Bool :=
  match fp with
  | .beforeCaption => (none, true)
  | .afterCaption => (some (joinMatches caption parts), true)
  | .nofail => (some (joinMatches caption parts), false)

/-- Method `interrogate` (lines 128-168): `res = None`, run the try-block; on an
exception, log it and run `res += "<error>"` — which itself raises a
TypeError when `res` is None, propagating and skipping `unload`.  Then
`unload()` and return `res`.  `.ok` carries the returned `res` and the
model state after the call; `.error` is an uncaught exception reaching
the caller. -/
def interrogate (opts : Opts) (fp : FailPoint) (caption : String)
    (parts : List String) (st : InterrogateState) :
    Except String (Option String × InterrogateState) :=
  let body := interrogateBody fp caption parts
  if body.2 then
    match pyAddToRes body.1 "<error>" with
    | Except.error e => Except.error e
    | Except.ok res2 => Except.ok (res2, unload opts st)
  else
    Except.ok (body.1, unload opts st)

/-! Method `rank` (lines 94-111).  The opaque network kernels — the exponential
inside `softmax`, the text encoder `encode_text`, and the vector norm —
are passed in as function parameters. -/

/-- One entry of `image_features[i] @ text_features.T`. -/
def dotQ (u v : List ℚ) : ℚ := (List.zipWith (· * ·) u v).sum

/-- Torch `t / t.norm(dim=-1, keepdim=True)` for one row, the norm kernel
`vnorm` being opaque. -/
def normalizeRow (vnorm : List ℚ → ℚ) (v : List ℚ) : List ℚ :=
  v.map (fun x => x / vnorm v)

/-- Torch `.softmax(dim=-1)` on one row, the exponential kernel `pexp` being
opaque. -/
def softmaxRow (pexp : ℚ → ℚ) (xs : List ℚ) : List ℚ :=
  (xs.map pexp).map (fun e => e / (xs.map pexp).sum)

/-- Elementwise `similarity += row`. -/
def addRows (u v : List ℚ) : List ℚ := List.zipWith (· + ·) u v

/-- Lines 97-98: `text_array = text_array[0:int(opts.interrogate_clip_dict_limit)]`
when the limit option is nonzero. -/
def rankCandidates (opts : Opts) (text_array : List String) : List String :=
  if opts.interrogate_clip_dict_limit ≠ 0 then
    text_array.take opts.interrogate_clip_dict_limit
  else text_array

/-- Torch `torch.topk(k)` on one row: indices and values of the `k` largest
entries, values in descending order (ties in an unspecified order). -/
def topkRow (xs : List ℚ) (k : Nat) : List (Nat × ℚ) :=
  (((List.range xs.length).zip xs).insertionSort
    (fun a b => b.2 ≤ a.2)).take k

/-- Method `InterrogateModels.rank` (lines 94-111). -/
def rank (opts : Opts) (pexp : ℚ → ℚ) (encode_text : String → List ℚ)
    (vnorm : List ℚ → ℚ) (image_features : List (List ℚ))
    (text_array : List String) (top_count : Nat) : List (String × ℚ) :=
  let text_array := rankCandidates opts text_array
  let top_count := min top_count text_array.length
  let text_features := text_array.map (fun s => normalizeRow vnorm (encode_text s))
  let sim0 : List ℚ := List.replicate text_array.length 0
  let sim :=
    image_features.foldl
      (fun acc f =>
        addRows acc (softmaxRow pexp (text_features.map (fun t => 100 * dotQ f t))))
      sim0
  let sim := sim.map (fun x => x / (image_features.length : ℚ))
  (topkRow sim top_count).map (fun p => (text_array.getD p.1 "", p.2 * 100))

/-- Spec-side: the softmax-normalised scaled cosine-similarity row of one
image crop against the candidate labels. -/
def cropRow (pexp : ℚ → ℚ) (encode_text : String → List ℚ)
    (vnorm : List ℚ → ℚ) (labels : List String) (f : List ℚ) : List ℚ :=
  softmaxRow pexp
    ((labels.map (fun s => normalizeRow vnorm (encode_text s))).map
      (fun t => 100 * dotQ f t))

/-- Spec-side: the similarity the claim assigns to candidate `j`: the
mean over the crops of the softmax-normalised scaled cosine similarities
between that crop's embedding and the label's normalised text
embedding. -/
def specSimilarity (pexp : ℚ → ℚ) (encode_text : String → List ℚ)
    (vnorm : List ℚ → ℚ) (image_features : List (List ℚ))
    (labels : List String) (j : Nat) : ℚ :=
  ((image_features.map (fun f => (cropRow pexp encode_text vnorm labels f).getD j 0)).sum)
    / (image_features.length : ℚ)

/-- Spec-side: every candidate label paired with its score (the claimed
similarity scaled by 100), in candidate order. -/
def specScoredPairs (pexp : ℚ → ℚ) (encode_text : String → List ℚ)
    (vnorm : List ℚ → ℚ) (image_features : List (List ℚ))
    (labels : List String) : List (String × ℚ) :=
  (List.range labels.length).map
    (fun j => (labels.getD j "",
      specSimilarity pexp encode_text vnorm image_features labels j * 100))

end InterrogateModels

end Interrogate

namespace Upsampler

/-! Embedding of `modules/upsampler/ldsr_model.py`. -/

/-- The `split_input_params` dict set by `LDSR.run` (lines 64-71). -/
structure SplitInputParams where
  ks : Nat × Nat
  stride : Nat × Nat
  vqf : Nat
  patch_distributed_vq : Bool
  tie_braker : Bool
  clip_max_weight : ℚ
  clip_min_weight : ℚ
  clip_max_tie_weight : ℚ
  clip_min_tie_weight : ℚ
deriving DecidableEq, Repr

/-- The diffusion-model attribute state `run` manipulates: presence or
absence of the `split_input_params` attribute. -/
structure DiffusionModel where
  split_input_params : Option SplitInputParams
deriving DecidableEq, Repr

namespace LDSR

/-- Function `get_cond` (lines 136-151): `example["image"]` is the input resized
by the fixed factor `up_f = 4`; this returns its height and width, the
`shape[1:3]` of the rearranged tensor. -/
def get_cond_dims (h w : Nat) : Nat × Nat := (4 * h, 4 * w)

/-- The fixed patch parameters assigned by lines 61-71 of `LDSR.run`:
128-by-128 patches, stride 64, `vqf` 4, and the border-weight clamps.
The code enables tiled (split-input) inference with these exactly when
the conditioning image is at least 128 in both dimensions, and otherwise
removes any existing `split_input_params` attribute. -/
def splitParams128 : SplitInputParams :=
  { ks := (128, 128), stride := (64, 64), vqf := 4,
    patch_distributed_vq := true, tie_braker := false,
    clip_max_weight := 0.5, clip_min_weight := 0.01,
    clip_max_tie_weight := 0.5, clip_min_tie_weight := 0.01 }

/-- The attribute update performed by lines 57-74 of `LDSR.run`. -/
def runSplitUpdate (model : DiffusionModel) (height width : Nat) :
    DiffusionModel :=
  if 128 ≤ height ∧ 128 ≤ width then
    { model with split_input_params := some splitParams128 }
  else { model with split_input_params := none }

/-- Python `int()` on a number: truncation toward zero. -/
def pyInt (q : ℚ) : Int := if 0 ≤ q then ⌊q⌋ else ⌈q⌉

/-- The outcome of the downsampling step of `super_resolution`: whether
a resize happened, the interpolation method, and the size handed to the
sampler. -/
structure PrepResult where
  resized : Bool
  method : String
  size : Int × Int
deriving DecidableEq, Repr

/-- Lines 100-119 of `LDSR.super_resolution`, float arithmetic idealised
as exact rationals: `down_sample_rate = target_scale / 4`; when it is
not 1, resize to `(int(width * rate), int(height * rate))` with Lanczos
interpolation, else keep the original size. -/
def superResolutionPrep (width_og height_og : Int) (target_scale : ℚ) :
    PrepResult :=
  let down_sample_rate := target_scale / 4
  let wd := (width_og : ℚ) * down_sample_rate
  let hd := (height_og : ℚ) * down_sample_rate
  if down_sample_rate ≠ 1 then
    { resized := true, method := "Lanczos", size := (pyInt wd, pyInt hd) }
  else
    { resized := false, method := "Lanczos", size := (width_og, height_og) }

/-- Torch `torch.clamp(sample, -1., 1.)` on one value. -/
def clampUnit (x : ℚ) : ℚ := min (max x (-1)) 1

/-- Rescaling `(sample + 1.) / 2. * 255` on one value. -/
def rescale255 (x : ℚ) : ℚ := (x + 1) / 2 * 255

/-- Numpy `.astype(np.uint8)` on one value: C-style conversion, truncation
toward zero reduced to 8 bits. -/
def toUint8 (q : ℚ) : Int := pyInt q % 256

/-- Lines 124-126 of `super_resolution` applied to one decoded sample
value: clamp to [-1, 1], rescale to [0, 255], convert to uint8. -/
def postprocessPixel (x : ℚ) : Int := toUint8 (rescale255 (clampUnit x))

/-- The decoded sample postprocessed into the output image values. -/
def postprocessSample (sample : List ℚ) : List Int :=
  sample.map postprocessPixel

end LDSR

namespace UpscalerLDSR

/-- An LDSR handle as built by `LDSR.__init__` (lines 41-43): the
checkpoint and yaml paths. -/
structure LDSRHandle where
  modelPath : String
  yamlPath : String
deriving DecidableEq, Repr

/-- The model directory contents: file name to size in bytes. -/
def ModelDir := String → Option Nat

/-- Lines 243-254 of `UpscalerLDSR.load_model`, the file fixups run
before downloading: delete `project.yaml` when it exists and its size
is at least 10485760 bytes; rename an existing `model.pth` to
`model.ckpt` (overwriting any `model.ckpt`). -/
def loadModelPrep (fs : ModelDir) : ModelDir :=
  let fs1 : ModelDir := fun name =>
    if name = "project.yaml" then
      match fs "project.yaml" with
      | some sz => if 10485760 ≤ sz then none else some sz
      | none => none
    else fs name
  fun name =>
    match fs1 "model.pth" with
    | some sz =>
      if name = "model.pth" then none
      else if name = "model.ckpt" then some sz
      else fs1 name
    | none => fs1 name

/-- Lines 260-266: `return LDSR(model, yaml)` inside try/except — a
construction failure is caught and logged and the sentinel `None` is
returned. -/
def load_model (construction : Except Unit LDSRHandle) : Option LDSRHandle :=
  match construction with
  | Except.ok h => some h
  | Except.error _ => none

/-- Method `do_upscale` (lines 268-274): load the model; on the `None` sentinel
return the input image unchanged, otherwise run super-resolution. -/
def do_upscale {Image : Type} (img : Image)
    (construction : Except Unit LDSRHandle)
    (super_resolution : LDSRHandle → Image → Image) : Image :=
  match load_model construction with
  | none => img
  | some h => super_resolution h img

end UpscalerLDSR

end Upsampler

namespace Interrogate

/-! Supporting lemmas about `takeWhile`, `drop` and the matcher. -/

theorem takeWhile_append_stop (p : Char → Bool) :
    ∀ (l1 : List Char) (c : Char) (l2 : List Char), (∀ x ∈ l1, p x) → p c = false →
      (l1 ++ c :: l2).takeWhile p = l1 := by
  intro l1
  induction l1 with
  | nil => intro c l2 _ hc; simp [List.takeWhile, hc]
  | cons x xs ih =>
    intro c l2 h hc
    have hx : p x = true := h x (by simp)
    simp only [List.cons_append, List.takeWhile, hx, List.append_eq]
    rw [ih c l2 (fun y hy => h y (by simp [hy])) hc]

theorem drop_len_takeWhile (p : Char → Bool) :
    ∀ l : List Char, l.drop (l.takeWhile p).length = l.dropWhile p := by
  intro l
  induction l with
  | nil => rfl
  | cons x xs ih =>
    by_cases hx : p x
    · simp [List.takeWhile, List.dropWhile, hx, ih]
    · simp [List.takeWhile, List.dropWhile, hx]

theorem mem_takeWhile_sat (p : Char → Bool) :
    ∀ (l : List Char) (x : Char), x ∈ l.takeWhile p → p x := by
  intro l
  induction l with
  | nil => intro x hx; simp [List.takeWhile] at hx
  | cons y ys ih =>
    intro x hx
    by_cases hy : p y
    · simp only [List.takeWhile, hy] at hx
      rcases List.mem_cons.mp hx with h | h
      · rwa [h]
      · exact ih x h
    · simp [List.takeWhile, hy] at hx

/-- Characterisation of the matcher: it succeeds exactly on strings that
start with `.top`, then a nonempty digit run, then a dot. -/
theorem matchTopnAt_some_iff (t : List Char) (n : Nat) :
    matchTopnAt t = some n ↔
      ∃ ds b, TopnToken ds ∧ t = '.' :: 't' :: 'o' :: 'p' :: (ds ++ '.' :: b) ∧
        n = digitsVal ds := by
  constructor
  · intro h
    unfold matchTopnAt at h
    by_cases h4 : t.take 4 = ['.', 't', 'o', 'p']
    swap
    · simp [h4] at h
    rw [if_pos h4] at h
    simp only [] at h
    set rest := t.drop 4 with hrest
    set ds := rest.takeWhile Char.isDigit with hds
    by_cases hne : ds = []
    · rw [if_pos hne] at h; exact absurd h (by simp)
    rw [if_neg hne] at h
    by_cases hdot : (rest.drop ds.length).take 1 = ['.']
    swap
    · rw [if_neg hdot] at h; exact absurd h (by simp)
    rw [if_pos hdot] at h
    have hn : n = digitsVal ds := by
      have := Option.some.inj h; omega
    have hdw : rest.dropWhile Char.isDigit = rest.drop ds.length := by
      rw [hds, drop_len_takeWhile]
    have hsplit : rest = ds ++ rest.drop ds.length := by
      conv_lhs => rw [← @List.takeWhile_append_dropWhile _ Char.isDigit rest]
      rw [hdw, hds]
    have htail : rest.drop ds.length = '.' :: (rest.drop ds.length).drop 1 := by
      conv_lhs => rw [← List.take_append_drop 1 (rest.drop ds.length)]
      rw [hdot]; rfl
    refine ⟨ds, (rest.drop ds.length).drop 1, ⟨hne, ?_⟩, ?_, hn⟩
    · exact fun c hc => mem_takeWhile_sat _ _ _ (hds ▸ hc)
    · conv_lhs => rw [← List.take_append_drop 4 t]
      rw [h4, ← hrest]
      rw [hsplit]
      rw [htail]
      simp
  · rintro ⟨ds, b, ⟨hne, hdig⟩, ht, hn⟩
    subst ht
    unfold matchTopnAt
    rw [if_pos (by simp)]
    simp only [List.drop_succ_cons, List.drop_zero]
    have htw : ((ds ++ '.' :: b).takeWhile Char.isDigit) = ds :=
      takeWhile_append_stop _ ds '.' b (fun x hx => hdig x hx) (by decide)
    rw [htw, if_neg hne, List.drop_left]
    simp [hn]

theorem hasTopnAt_iff_match (s : List Char) (p n : Nat) :
    HasTopnAt s p n ↔ matchTopnAt (s.drop p) = some n :=
  (matchTopnAt_some_iff (s.drop p) n).symm

theorem noTopnAt_iff_match (s : List Char) (p : Nat) :
    NoTopnAt s p ↔ matchTopnAt (s.drop p) = none := by
  unfold NoTopnAt
  constructor
  · intro h
    match hm : matchTopnAt (s.drop p) with
    | none => rfl
    | some m => exact absurd ((hasTopnAt_iff_match s p m).mpr hm) (h m)
  · intro h m hm
    rw [hasTopnAt_iff_match, h] at hm
    exact absurd hm (by simp)

theorem searchTopn_some_iff (s : List Char) (n : Nat) :
    searchTopn s = some n ↔
      ∃ p, matchTopnAt (s.drop p) = some n ∧
        ∀ q, q < p → matchTopnAt (s.drop q) = none := by
  induction s with
  | nil =>
    simp only [searchTopn, List.drop_nil]
    constructor
    · intro h; exact absurd h (by simp)
    · rintro ⟨p, hp, -⟩
      simp [matchTopnAt] at hp
  | cons c cs ih =>
    match hm : matchTopnAt (c :: cs) with
    | some m =>
      simp only [searchTopn, hm]
      constructor
      · intro h
        refine ⟨0, ?_, ?_⟩
        · rw [List.drop_zero, hm]; exact h
        · intro q hq; omega
      · rintro ⟨p, hp, hq⟩
        cases p with
        | zero => rw [List.drop_zero, hm] at hp; exact hp
        | succ p' =>
          have h0 := hq 0 (by omega)
          rw [List.drop_zero, hm] at h0
          exact absurd h0 (by simp)
    | none =>
      simp only [searchTopn, hm]
      rw [ih]
      constructor
      · rintro ⟨p, hp, hq⟩
        refine ⟨p + 1, ?_, ?_⟩
        · simpa using hp
        · intro q hq'
          cases q with
          | zero => simpa using hm
          | succ q' => simpa using hq q' (by omega)
      · rintro ⟨p, hp, hq⟩
        cases p with
        | zero =>
          rw [List.drop_zero, hm] at hp
          exact absurd hp (by simp)
        | succ p' =>
          refine ⟨p', by simpa using hp, ?_⟩
          intro q hq'
          simpa using hq (q + 1) (by omega)

theorem searchTopn_none_iff (s : List Char) :
    searchTopn s = none ↔ ∀ p, matchTopnAt (s.drop p) = none := by
  induction s with
  | nil =>
    constructor
    · intro _ p; simp [matchTopnAt]
    · intro _; rfl
  | cons c cs ih =>
    match hm : matchTopnAt (c :: cs) with
    | some m =>
      simp only [searchTopn, hm]
      constructor
      · intro h; exact absurd h (by simp)
      · intro h
        have h0 := h 0
        rw [List.drop_zero, hm] at h0
        exact absurd h0 (by simp)
    | none =>
      simp only [searchTopn, hm]
      rw [ih]
      constructor
      · intro h p
        cases p with
        | zero => simpa using hm
        | succ p' => simpa using h p'
      · intro h p
        simpa using h (p + 1)

/-- C3 counterexample: the filename ".top2.top3." contains the substring
".top3." (so the claim, read literally, requires topn = 3), yet the
Category built for it has topn 2, the value of the leftmost marker. -/
theorem c3_disproof :
    HasTopn ".top2.top3.".data 3 ∧ (mkCategory ".top2.top3." []).topn ≠ 3 := by
  constructor
  · exact ⟨".top2".data, ['3'], [], ⟨by decide, by decide⟩, by decide, by decide⟩
  · decide

/-- C3 (amended): the Category built for a filename has topn equal to the
integer N of the leftmost substring of the form ".top<N>." when one
exists and 1 otherwise, and its items are the whitespace-stripped lines
of the file in file order. -/
theorem c3_category (filename : String) (fileLines : List String)
    (r : Option (Nat × Nat)) (h : LeftTopn filename.data r) :
    mkCategory filename fileLines =
      { name := filename, topn := topnSpecOf r, items := fileLines.map pyStrip } := by
  have htopn : searchTopn filename.data = r.map Prod.snd := by
    match r with
    | some pn =>
      obtain ⟨h1, h2⟩ := h
      exact (searchTopn_some_iff _ _).mpr
        ⟨pn.1, (hasTopnAt_iff_match _ _ _).mp h1,
          fun q hq => (noTopnAt_iff_match _ _).mp (h2 q hq)⟩
    | none =>
      exact (searchTopn_none_iff _).mpr fun p => (noTopnAt_iff_match _ _).mp (h p)
  unfold mkCategory
  rw [htopn]
  match r with
  | some pn => rfl
  | none => rfl

/-- Witness for `c3_category` at a concrete filename and file content. -/
theorem c3_category_witness :
    LeftTopn "artists.top3.txt".data (some (7, 3)) ∧
      mkCategory "artists.top3.txt" [" a ", "b"] =
        { name := "artists.top3.txt", topn := 3, items := ["a", "b"] } := by
  have hL : LeftTopn "artists.top3.txt".data (some (7, 3)) := by
    refine ⟨(hasTopnAt_iff_match _ _ _).mpr (by decide), ?_⟩
    intro q hq
    rw [noTopnAt_iff_match]
    interval_cases q <;> decide
  exact ⟨hL, (c3_category "artists.top3.txt" [" a ", "b"] (some (7, 3)) hL).trans
    (by decide)⟩


namespace InterrogateModels

/-- C1 (evaluation at the failing input): for a run whose failure occurs
before any caption has been produced, the except-handler executes
`res += "<error>"` while `res` is still None; that itself raises a
TypeError which propagates past `interrogate`, so the caller receives an
exception instead of an error-marked string. -/
theorem c1_error_before_caption_raises :
    interrogate
        { interrogate_keep_models_in_memory := false,
          interrogate_clip_dict_limit := 0 }
        FailPoint.beforeCaption "a photograph" []
        { blip_model := none, clip_model := none } =
      Except.error
        "TypeError: unsupported operand type(s) for +=: NoneType and str" := rfl

/-- C7: when the keep-models-in-memory option is false, `unload` moves
any loaded captioning (blip) and ranking (clip) model to the cpu; when
it is true, `send_blip_to_ram` and `send_clip_to_ram` leave the state
unchanged.  Moreover, whenever `interrogate` returns (rather than
raising), the state it returns is `unload` of its starting state. -/
theorem c7_unload_placement (opts : Opts) (st : InterrogateState) :
    (opts.interrogate_keep_models_in_memory = false →
      (∀ m, st.blip_model = some m →
        (unload opts st).blip_model = some (toDevice m PyDevice.cpu)) ∧
      (∀ m, st.clip_model = some m →
        (unload opts st).clip_model = some (toDevice m PyDevice.cpu))) ∧
    (opts.interrogate_keep_models_in_memory = true →
      send_blip_to_ram opts st = st ∧ send_clip_to_ram opts st = st) ∧
    (∀ fp caption parts r st2,
      interrogate opts fp caption parts st = Except.ok (r, st2) →
      st2 = unload opts st) := by
  refine ⟨?_, ?_, ?_⟩
  · intro hk
    constructor
    · intro m hm
      cases hc : st.clip_model <;>
        simp [unload, send_blip_to_ram, send_clip_to_ram, hk, hm, hc, toDevice]
    · intro m hm
      cases hb : st.blip_model <;>
        simp [unload, send_blip_to_ram, send_clip_to_ram, hk, hm, hb, toDevice]
  · intro hk
    constructor <;> simp [send_blip_to_ram, send_clip_to_ram, hk]
  · intro fp caption parts r st2 h
    cases fp with
    | beforeCaption => simp [interrogate, interrogateBody, pyAddToRes] at h
    | afterCaption =>
      simp [interrogate, interrogateBody, pyAddToRes] at h
      exact h.2.symm
    | nofail =>
      simp [interrogate, interrogateBody] at h
      exact h.2.symm

/-- Witness for `c7_unload_placement` at a concrete option set and
state. -/
theorem c7_unload_placement_witness :
    (unload
        { interrogate_keep_models_in_memory := false,
          interrogate_clip_dict_limit := 0 }
        { blip_model := some { mid := 0, device := PyDevice.cuda 0 },
          clip_model := some { mid := 1, device := PyDevice.cuda 0 } }).blip_model =
      some (toDevice { mid := 0, device := PyDevice.cuda 0 } PyDevice.cpu) :=
  ((c7_unload_placement
      { interrogate_keep_models_in_memory := false,
        interrogate_clip_dict_limit := 0 }
      { blip_model := some { mid := 0, device := PyDevice.cuda 0 },
        clip_model := some { mid := 1, device := PyDevice.cuda 0 } }).1 rfl).1
    { mid := 0, device := PyDevice.cuda 0 } rfl

/-! Supporting lemmas for the `rank` theorems. -/

theorem addRows_length (u v : List ℚ) :
    (addRows u v).length = min u.length v.length := by
  simp [addRows]

theorem softmaxRow_length (pexp : ℚ → ℚ) (xs : List ℚ) :
    (softmaxRow pexp xs).length = xs.length := by
  simp [softmaxRow]

theorem cropRow_length (pexp : ℚ → ℚ) (encode_text : String → List ℚ)
    (vnorm : List ℚ → ℚ) (labels : List String) (f : List ℚ) :
    (cropRow pexp encode_text vnorm labels f).length = labels.length := by
  simp [cropRow, softmaxRow]

theorem getD_addRows : ∀ (u v : List ℚ) (j : Nat), j < u.length → j < v.length →
    (addRows u v).getD j 0 = u.getD j 0 + v.getD j 0 := by
  intro u
  induction u with
  | nil => intro v j h _; simp at h
  | cons x u ih =>
    intro v j hju hjv
    cases v with
    | nil => simp at hjv
    | cons y v =>
      cases j with
      | zero => simp [addRows]
      | succ j2 =>
        simp only [addRows, List.zipWith_cons_cons, List.getD_cons_succ]
        exact ih v j2 (by simpa using hju) (by simpa using hjv)

theorem getD_replicate_zero : ∀ (n j : Nat), (List.replicate n (0 : ℚ)).getD j 0 = 0 := by
  intro n
  induction n with
  | zero => intro j; simp
  | succ n ih =>
    intro j
    cases j with
    | zero => simp [List.replicate]
    | succ j2 => simp [List.replicate, ih j2]

theorem foldl_addRows_getD :
    ∀ (rows : List (List ℚ)) (acc : List ℚ) (n : Nat), acc.length = n →
      (∀ r ∈ rows, r.length = n) →
      (rows.foldl addRows acc).length = n ∧
      ∀ j, j < n → (rows.foldl addRows acc).getD j 0 =
        acc.getD j 0 + (rows.map (fun r => r.getD j 0)).sum := by
  intro rows
  induction rows with
  | nil => intro acc n hacc _; exact ⟨hacc, fun j _ => by simp⟩
  | cons r rows ih =>
    intro acc n hacc hall
    have hr : r.length = n := hall r (by simp)
    have hacc2 : (addRows acc r).length = n := by
      rw [addRows_length, hacc, hr]; exact Nat.min_self n
    obtain ⟨hL, hG⟩ := ih (addRows acc r) n hacc2 (fun q hq => hall q (by simp [hq]))
    refine ⟨by simpa using hL, ?_⟩
    intro j hj
    have h1 : (addRows acc r).getD j 0 = acc.getD j 0 + r.getD j 0 :=
      getD_addRows acc r j (by rw [hacc]; exact hj) (by rw [hr]; exact hj)
    simp only [List.foldl_cons]
    rw [hG j hj, h1]
    simp [add_assoc]

theorem list_eq_range_map_getD : ∀ l : List ℚ,
    (List.range l.length).map (fun j => l.getD j 0) = l := by
  intro l
  induction l with
  | nil => rfl
  | cons x l ih =>
    rw [List.length_cons, List.range_succ_eq_map, List.map_cons, List.map_map]
    rw [List.getD_cons_zero]
    have h2 : (List.range l.length).map ((fun j => (x :: l).getD j 0) ∘ Nat.succ)
        = (List.range l.length).map (fun j => l.getD j 0) :=
      List.map_congr_left (fun a _ => by simp [Function.comp])
    rw [h2, ih]

theorem map_eq_range_map_getD (l : List ℚ) (f : ℚ → ℚ) :
    l.map f = (List.range l.length).map (fun j => f (l.getD j 0)) := by
  conv_lhs => rw [← list_eq_range_map_getD l]
  rw [List.map_map]
  rfl

theorem zip_self_map : ∀ (l : List Nat) (g : Nat → ℚ),
    l.zip (l.map g) = l.map (fun j => (j, g j)) := by
  intro l g
  induction l with
  | nil => rfl
  | cons x l ih => simp [ih]

/-- The similarity row computed by the accumulation loop of `rank`
equals the spec-side mean formula, entry by entry. -/
theorem simList_eq_specSimilarity (pexp : ℚ → ℚ) (encode_text : String → List ℚ)
    (vnorm : List ℚ → ℚ) (image_features : List (List ℚ)) (labels : List String) :
    ((image_features.foldl
        (fun acc f => addRows acc (cropRow pexp encode_text vnorm labels f))
        (List.replicate labels.length 0)).map
      (fun x => x / (image_features.length : ℚ)))
      = (List.range labels.length).map
          (specSimilarity pexp encode_text vnorm image_features labels) := by
  rw [show (image_features.foldl
        (fun acc f => addRows acc (cropRow pexp encode_text vnorm labels f))
        (List.replicate labels.length 0))
      = ((image_features.map (cropRow pexp encode_text vnorm labels)).foldl addRows
          (List.replicate labels.length 0)) from (List.foldl_map _ _ _ _).symm]
  have hall : ∀ r ∈ image_features.map (cropRow pexp encode_text vnorm labels),
      r.length = labels.length := by
    intro r hr
    obtain ⟨f, -, rfl⟩ := List.mem_map.mp hr
    exact cropRow_length pexp encode_text vnorm labels f
  obtain ⟨hlen, hget⟩ := foldl_addRows_getD
    (image_features.map (cropRow pexp encode_text vnorm labels))
    (List.replicate labels.length 0) labels.length (by simp) hall
  rw [map_eq_range_map_getD, hlen]
  apply List.map_congr_left
  intro j hj
  have hj2 : j < labels.length := List.mem_range.mp hj
  rw [hget j hj2, getD_replicate_zero, zero_add]
  unfold specSimilarity
  rw [List.map_map]
  rfl

/-- Method `rank` rewritten as topk over the spec-side similarity values. -/
theorem rank_eq_topk (opts : Opts) (pexp : ℚ → ℚ)
    (encode_text : String → List ℚ) (vnorm : List ℚ → ℚ)
    (image_features : List (List ℚ)) (text_array : List String)
    (top_count : Nat) :
    rank opts pexp encode_text vnorm image_features text_array top_count =
      (topkRow
        ((List.range (rankCandidates opts text_array).length).map
          (specSimilarity pexp encode_text vnorm image_features
            (rankCandidates opts text_array)))
        (min top_count (rankCandidates opts text_array).length)).map
        (fun p => ((rankCandidates opts text_array).getD p.1 "", p.2 * 100)) := by
  show (topkRow
      ((image_features.foldl
          (fun acc f => addRows acc
            (cropRow pexp encode_text vnorm (rankCandidates opts text_array) f))
          (List.replicate (rankCandidates opts text_array).length 0)).map
        (fun x => x / (image_features.length : ℚ)))
      (min top_count (rankCandidates opts text_array).length)).map
      (fun p => ((rankCandidates opts text_array).getD p.1 "", p.2 * 100)) = _
  rw [simList_eq_specSimilarity]

theorem topkRow_length (xs : List ℚ) (k : Nat) :
    (topkRow xs k).length = min k xs.length := by
  unfold topkRow
  rw [List.length_take]
  congr 1
  rw [(List.perm_insertionSort _ _).length_eq]
  simp

/-- Lemma: `topkRow` returns a prefix of a descending rearrangement of the
indexed input row. -/
theorem topkRow_spec (xs : List ℚ) (k : Nat) :
    ∃ restIdx : List (Nat × ℚ),
      (topkRow xs k ++ restIdx).Perm ((List.range xs.length).zip xs) ∧
      (topkRow xs k ++ restIdx).Pairwise
        (fun a b : Nat × ℚ => b.2 ≤ a.2) := by
  refine ⟨(((List.range xs.length).zip xs).insertionSort
      (fun a b => b.2 ≤ a.2)).drop k, ?_, ?_⟩
  · unfold topkRow
    rw [List.take_append_drop]
    exact List.perm_insertionSort _ _
  · unfold topkRow
    rw [List.take_append_drop]
    haveI : IsTotal (Nat × ℚ) (fun a b => b.2 ≤ a.2) :=
      ⟨fun a b => le_total b.2 a.2⟩
    haveI : IsTrans (Nat × ℚ) (fun a b => b.2 ≤ a.2) :=
      ⟨fun a b c h1 h2 => le_trans h2 h1⟩
    exact List.sorted_insertionSort _ _

/-- C9: `rank` returns exactly min(top_count, candidates) label-score
pairs, where the candidate list is the supplied label list truncated to
the first clip-dict-limit entries when that option is nonzero. -/
theorem c9_rank_length (opts : Opts) (pexp : ℚ → ℚ)
    (encode_text : String → List ℚ) (vnorm : List ℚ → ℚ)
    (image_features : List (List ℚ)) (text_array : List String)
    (top_count : Nat) :
    (rank opts pexp encode_text vnorm image_features text_array
        top_count).length =
      min top_count (rankCandidates opts text_array).length := by
  rw [rank_eq_topk, List.length_map, topkRow_length, List.length_map,
    List.length_range]
  omega

/-- C8: the pairs returned by `rank` form an initial segment, in
descending score order, of a rearrangement of the list pairing every
candidate label with 100 times the mean over the image crops of the
softmax-normalised scaled cosine similarities against that label's
normalised text embedding; the segment has length min(top_count,
candidates). -/
theorem c8_rank_top_similar (opts : Opts) (pexp : ℚ → ℚ)
    (encode_text : String → List ℚ) (vnorm : List ℚ → ℚ)
    (image_features : List (List ℚ)) (text_array : List String)
    (top_count : Nat) :
    ∃ rest : List (String × ℚ),
      ((rank opts pexp encode_text vnorm image_features text_array top_count
          ++ rest).Perm
        (specScoredPairs pexp encode_text vnorm image_features
          (rankCandidates opts text_array))) ∧
      ((rank opts pexp encode_text vnorm image_features text_array top_count
          ++ rest).Pairwise (fun a b : String × ℚ => b.2 ≤ a.2)) ∧
      (rank opts pexp encode_text vnorm image_features text_array
          top_count).length =
        min top_count (rankCandidates opts text_array).length := by
  rw [rank_eq_topk]
  set labels := rankCandidates opts text_array with hlabels
  set simList := (List.range labels.length).map
      (specSimilarity pexp encode_text vnorm image_features labels) with hsim
  set tc := min top_count labels.length with htc
  set g : Nat × ℚ → String × ℚ := fun p => (labels.getD p.1 "", p.2 * 100)
    with hg
  obtain ⟨restIdx, hperm, hpair⟩ := topkRow_spec simList tc
  have hslen : simList.length = labels.length := by
    rw [hsim, List.length_map, List.length_range]
  refine ⟨restIdx.map g, ?_, ?_, ?_⟩
  · rw [← List.map_append]
    refine (hperm.map g).trans ?_
    have heq : ((List.range simList.length).zip simList).map g =
        specScoredPairs pexp encode_text vnorm image_features labels := by
      rw [hslen]
      rw [hsim, zip_self_map, List.map_map]
      rfl
    rw [heq]
  · rw [← List.map_append]
    exact hpair.map g
      (fun a b h => mul_le_mul_of_nonneg_right h (by norm_num))
  · rw [List.length_map, topkRow_length]
    omega

end InterrogateModels

end Interrogate

namespace Upsampler

namespace LDSR

/-- C4: the down-sample rate is target_scale / 4; whenever it differs
from 1 the (w, h) input is resized to exactly
(int(w * t / 4), int(h * t / 4)) with Lanczos interpolation before
diffusion, and when t = 4 the original size is kept. -/
theorem c4_super_resolution_downsample (w h : Int) (t : ℚ) :
    (t ≠ 4 →
      superResolutionPrep w h t =
        { resized := true, method := "Lanczos",
          size := (pyInt ((w : ℚ) * t / 4), pyInt ((h : ℚ) * t / 4)) }) ∧
    (t = 4 →
      superResolutionPrep w h t =
        { resized := false, method := "Lanczos", size := (w, h) }) := by
  have hrate : t / 4 = 1 ↔ t = 4 := by
    rw [div_eq_one_iff_eq (by norm_num : (4 : ℚ) ≠ 0)]
  constructor
  · intro ht
    have hc : t / 4 ≠ 1 := fun hh => ht (hrate.mp hh)
    simp only [superResolutionPrep]
    rw [if_pos hc]
    simp only [mul_div_assoc]
  · intro ht
    simp only [superResolutionPrep]
    rw [if_neg (not_not.mpr (hrate.mpr ht))]

/-- Witness for `c4_super_resolution_downsample` at w = 100, h = 50,
t = 2. -/
theorem c4_super_resolution_downsample_witness :
    (2 : ℚ) ≠ 4 ∧
      superResolutionPrep 100 50 2 =
        { resized := true, method := "Lanczos", size := (50, 25) } :=
  ⟨by norm_num,
    ((c4_super_resolution_downsample 100 50 2).1 (by norm_num)).trans
      (by norm_num [pyInt, PrepResult.mk.injEq, Prod.mk.injEq])⟩

/-- C5: `run` enables tiled (split-input) inference exactly when the
conditioning image is at least 128 high and 128 wide, with 128-by-128
patches, stride 64, vqf 4, clip_min_weight 0.01, clip_max_weight 0.5;
in every other case the `split_input_params` attribute is absent from
the model handed to sampling. -/
theorem c5_run_split_input (m : DiffusionModel) (height width : Nat) :
    ((128 ≤ height ∧ 128 ≤ width) →
      runSplitUpdate m height width =
        { split_input_params := some splitParams128 }) ∧
    (¬(128 ≤ height ∧ 128 ≤ width) →
      (runSplitUpdate m height width).split_input_params = none) ∧
    splitParams128.ks = (128, 128) ∧ splitParams128.stride = (64, 64) ∧
    splitParams128.vqf = 4 ∧ splitParams128.clip_min_weight = 0.01 ∧
    splitParams128.clip_max_weight = 0.5 := by
  refine ⟨?_, ?_, rfl, rfl, rfl, rfl, rfl⟩
  · intro hc
    unfold runSplitUpdate
    rw [if_pos hc]
  · intro hc
    unfold runSplitUpdate
    rw [if_neg hc]

/-- Witness for `c5_run_split_input` at a 512-by-640 conditioning
image. -/
theorem c5_run_split_input_witness :
    (128 ≤ 512 ∧ 128 ≤ 640) ∧
      runSplitUpdate { split_input_params := none } 512 640 =
        { split_input_params := some splitParams128 } :=
  ⟨⟨by norm_num, by norm_num⟩,
    (c5_run_split_input { split_input_params := none } 512 640).1
      ⟨by norm_num, by norm_num⟩⟩

theorem pyInt_rescale_bounds (x : ℚ) :
    0 ≤ pyInt (rescale255 (clampUnit x)) ∧
      pyInt (rescale255 (clampUnit x)) ≤ 255 := by
  have hlo : -1 ≤ clampUnit x := by
    unfold clampUnit
    exact le_min (le_max_right x (-1)) (by norm_num)
  have hhi : clampUnit x ≤ 1 := min_le_right _ _
  have h0 : 0 ≤ rescale255 (clampUnit x) := by
    unfold rescale255
    nlinarith [hlo]
  have h255 : rescale255 (clampUnit x) ≤ 255 := by
    unfold rescale255
    nlinarith [hhi]
  unfold pyInt
  rw [if_pos h0]
  constructor
  · exact Int.le_floor.mpr (by exact_mod_cast h0)
  · have := Int.floor_le_floor h255
    rwa [show ⌊(255 : ℚ)⌋ = 255 by norm_num] at this

/-- C6: every output value of the postprocessing step is the decoded
sample value clamped to [-1, 1], rescaled by (x + 1) / 2 * 255 and
truncated to an unsigned 8-bit integer without wrapping, hence lies in
[0, 255]; and this holds for every pixel of the postprocessed sample. -/
theorem c6_postprocess_range (x : ℚ) (sample : List ℚ) :
    postprocessPixel x = pyInt (rescale255 (clampUnit x)) ∧
    0 ≤ postprocessPixel x ∧ postprocessPixel x ≤ 255 ∧
    (postprocessSample sample).all
      (fun y => decide (0 ≤ y) && decide (y ≤ 255)) = true := by
  have hpix : ∀ z : ℚ, postprocessPixel z = pyInt (rescale255 (clampUnit z)) := by
    intro z
    obtain ⟨h0, h255⟩ := pyInt_rescale_bounds z
    unfold postprocessPixel toUint8
    exact Int.emod_eq_of_lt h0 (by omega)
  obtain ⟨h0, h255⟩ := pyInt_rescale_bounds x
  refine ⟨hpix x, ?_, ?_, ?_⟩
  · rw [hpix x]; exact h0
  · rw [hpix x]; exact h255
  · rw [List.all_eq_true]
    intro y hy
    obtain ⟨z, -, rfl⟩ := List.mem_map.mp hy
    simp only [Bool.and_eq_true, decide_eq_true_eq]
    rw [hpix z]
    exact pyInt_rescale_bounds z

end LDSR

namespace UpscalerLDSR

/-- C2: when construction of the LDSR model fails, the failure is
caught inside `load_model`, which returns the sentinel None, and
`do_upscale` then returns the original input image unchanged instead of
raising. -/
theorem c2_construction_failure_fallback {Image : Type} (img : Image)
    (e : Unit) (sr : LDSRHandle → Image → Image) :
    load_model (Except.error e) = none ∧
      do_upscale img (Except.error e) sr = img :=
  ⟨rfl, rfl⟩

/-- C10: the pre-download file fixups of `load_model` delete
`project.yaml` exactly when it exists with size at least 10485760
bytes, rename an existing `model.pth` to `model.ckpt`, and touch no
other file of the model directory. -/
theorem c10_load_model_prep (fs : ModelDir) :
    (loadModelPrep fs "project.yaml" =
      match fs "project.yaml" with
      | some sz => if 10485760 ≤ sz then none else some sz
      | none => none) ∧
    (∀ sz, fs "model.pth" = some sz →
      loadModelPrep fs "model.pth" = none ∧
      loadModelPrep fs "model.ckpt" = some sz) ∧
    (fs "model.pth" = none →
      loadModelPrep fs "model.pth" = none ∧
      loadModelPrep fs "model.ckpt" = fs "model.ckpt") ∧
    (∀ name, name ≠ "project.yaml" → name ≠ "model.pth" →
      name ≠ "model.ckpt" → loadModelPrep fs name = fs name) := by
  refine ⟨?_, ?_, ?_, ?_⟩
  · unfold loadModelPrep
    cases hp : fs "model.pth" <;> simp [hp]
  · intro sz hp
    unfold loadModelPrep
    simp [hp]
  · intro hp
    unfold loadModelPrep
    simp [hp]
  · intro name h1 h2 h3
    unfold loadModelPrep
    cases hp : fs "model.pth" <;> simp [hp, h1, h2, h3]

/-- Witness for `c10_load_model_prep`: a directory holding only a
`model.pth`; an unrelated file name is untouched. -/
theorem c10_load_model_prep_witness :
    loadModelPrep (fun name => if name = "model.pth" then some 7 else none)
      "other.txt" = none :=
  ((c10_load_model_prep
      (fun name => if name = "model.pth" then some 7 else none)).2.2.2
    "other.txt" (by decide) (by decide) (by decide)).trans (by decide)

end UpscalerLDSR

end Upsampler
